import Mathlib

/-!
Verification of the drag-and-drop bookmark grid engine of Glassy-Starter-Page.

The data model (`BookmarkItem`, src/types.ts) and the operations
(`handleDrop` and the drag-over classification in
src/components/BookmarkGrid.tsx, the folder-removal paths in
src/components/SearchBar.tsx `FolderView` and src/App.tsx) are embedded
shallowly: lists stand for JS arrays, `Option` for possibly-`undefined`
fields, rationals for the pointer/box coordinates, and the JavaScript
index conventions (`findIndex` returning -1, `splice` clamping a negative
start, element assignment at index -1 leaving the array's elements
untouched) are spelled out explicitly.
-/

/-- `ItemType` from src/types.ts: `type ItemType = 'link' | 'folder'`. -/
inductive ItemType where
  | link
  | folder
deriving DecidableEq, Repr

/-- `BookmarkItem` from src/types.ts:
`{ id: string; type: ItemType; title: string; url?: string; icon?: string;
children?: BookmarkItem[] }`.  `url`, `icon` and `children` are optional. -/
inductive BookmarkItem where
  | mk (id : String) (type : ItemType) (title : String)
       (url : Option String) (icon : Option String)
       (children : Option (List BookmarkItem))

namespace BookmarkItem

def id : BookmarkItem → String
  | .mk i _ _ _ _ _ => i

def type : BookmarkItem → ItemType
  | .mk _ t _ _ _ _ => t

def title : BookmarkItem → String
  | .mk _ _ ti _ _ _ => ti

def url : BookmarkItem → Option String
  | .mk _ _ _ u _ _ => u

def icon : BookmarkItem → Option String
  | .mk _ _ _ _ ic _ => ic

def children : BookmarkItem → Option (List BookmarkItem)
  | .mk _ _ _ _ _ c => c

/-- The spread update `{...item, children: cs}` used by `handleDrop` and the
folder-removal handlers: every field kept, `children` replaced. -/
def setChildren : BookmarkItem → List BookmarkItem → BookmarkItem
  | .mk i t ti u ic _, cs => .mk i t ti u ic (some cs)

end BookmarkItem

/-- JS `Array.prototype.findIndex`: index of the first match, `-1` if none. -/
def jsFindIndex (p : BookmarkItem → Bool) (l : List BookmarkItem) : Int :=
  match l.findIdx? p with
  | some k => (k : Int)
  | none => -1

/-- The start-index normalisation of JS `Array.prototype.splice`:
a negative `start` counts from the end (clamped at 0), a large `start` is
clamped to the length. -/
def jsSpliceStart (start : Int) (len : Nat) : Nat :=
  if start < 0 then ((len : Int) + start).toNat else min start.toNat len

/-- Insertion at a (already clamped) position, as `splice(start, 0, a)` does. -/
def insertAtNat : Nat → BookmarkItem → List BookmarkItem → List BookmarkItem
  | 0, a, l => a :: l
  | _ + 1, a, [] => [a]
  | n + 1, a, b :: l => b :: insertAtNat n a l

/-- `newItems.splice(start, 0, a)` for a possibly negative `start`
(as produced by `findIndex`, possibly -1, plus offsets). -/
def jsSpliceInsert (l : List BookmarkItem) (start : Int) (a : BookmarkItem) :
    List BookmarkItem :=
  insertAtNat (jsSpliceStart start l.length) a l

/-- `newItems[i] = a` for `i` a `findIndex` result: for `0 ≤ i < length` the
element is replaced; for `i = -1` a non-index property is created on the JS
array object and the array's elements are untouched, so the list is
unchanged. -/
def jsSetElem (l : List BookmarkItem) (i : Int) (a : BookmarkItem) :
    List BookmarkItem :=
  if 0 ≤ i ∧ i.toNat < l.length then l.set i.toNat a else l

/-- The three values of the `action` field of `dragTarget` in
src/components/BookmarkGrid.tsx line 28. -/
inductive DragAction where
  | merge
  | reorderBefore
  | reorderAfter
deriving DecidableEq, Repr

/-- The classification computed by `handleDragOver`
(src/components/BookmarkGrid.tsx lines 45-72): `isCenter` from the strict
25%/75% inequalities, `canMerge` ruling out folder-over-folder, otherwise
a reorder side decided by `x > width / 2`.  Coordinates are modelled as
rationals. -/
def classifyDragOver (draggedType targetType : ItemType) (x y w h : ℚ) :
    DragAction :=
  let isCenter : Bool :=
    decide (x > w * (1/4)) && decide (x < w * (3/4)) &&
    decide (y > h * (1/4)) && decide (y < h * (3/4))
  let canMerge : Bool :=
    !(decide (draggedType = ItemType.folder) &&
      decide (targetType = ItemType.folder))
  if isCenter && canMerge then
    DragAction.merge
  else if decide (x > w / 2) then
    DragAction.reorderAfter
  else
    DragAction.reorderBefore

/-- The classification recomputed inside `handleDrop`
(src/components/BookmarkGrid.tsx lines 90-101 and 129): `isCenter`,
`canMerge`, `isMerge = isCenter && canMerge`, and in the reorder branch
`insertAfter = x > rect.width / 2`. -/
def classifyDrop (draggedType targetType : ItemType) (x y w h : ℚ) :
    DragAction :=
  let isCenter : Bool :=
    decide (x > w * (1/4)) && decide (x < w * (3/4)) &&
    decide (y > h * (1/4)) && decide (y < h * (3/4))
  let canMerge : Bool :=
    !(decide (draggedType = ItemType.folder) &&
      decide (targetType = ItemType.folder))
  let isMerge := isCenter && canMerge
  if isMerge then
    DragAction.merge
  else if decide (x > w / 2) then
    DragAction.reorderAfter
  else
    DragAction.reorderBefore

/-- The fresh folder synthesised by `handleDrop`
(src/components/BookmarkGrid.tsx lines 118-124):
`{ id: "folder-" + Date.now(), type: 'folder', title: 'New Folder',
icon: '📁', children: [targetItem, draggedObj] }`.  `Date.now()` is the
`now` parameter. -/
def newFolder (now : Nat) (target draggedObj : BookmarkItem) : BookmarkItem :=
  BookmarkItem.mk ("folder-" ++ toString now) ItemType.folder "New Folder"
    none (some "📁") (some [target, draggedObj])

/-- `handleDrop` (src/components/BookmarkGrid.tsx lines 79-147) as a pure
function from the current list, the dragged item (`draggedItem` state), the
target item, the pointer position `(x, y)` relative to the target's
bounding box of size `w × h`, and the current time `now` (`Date.now()`),
to the list passed to `setItems`.  When the handler returns early without
calling `setItems` the state is unchanged, modelled by returning the input
list. -/
def handleDrop (items : List BookmarkItem) (draggedItem targetItem : BookmarkItem)
    (x y w h : ℚ) (now : Nat) : List BookmarkItem :=
  if draggedItem.id = targetItem.id then items
  else
    match items.find? (fun i => i.id == draggedItem.id) with
    | none => items
    | some draggedObj =>
      let isCenter : Bool :=
        decide (x > w * (1/4)) && decide (x < w * (3/4)) &&
        decide (y > h * (1/4)) && decide (y < h * (3/4))
      let canMerge : Bool :=
        !(decide (draggedItem.type = ItemType.folder) &&
          decide (targetItem.type = ItemType.folder))
      let isMerge := isCenter && canMerge
      let newItems := items.eraseP (fun i => i.id == draggedItem.id)
      if isMerge then
        let targetIdx := jsFindIndex (fun i => i.id == targetItem.id) newItems
        if targetItem.type = ItemType.folder then
          jsSetElem newItems targetIdx
            (targetItem.setChildren ((targetItem.children.getD []) ++ [draggedObj]))
        else
          jsSetElem newItems targetIdx (newFolder now targetItem draggedObj)
      else
        let insertAfter : Bool := decide (x > w / 2)
        let targetIdx := jsFindIndex (fun i => i.id == targetItem.id) newItems
        if insertAfter then
          jsSpliceInsert newItems (targetIdx + 1) draggedObj
        else
          jsSpliceInsert newItems targetIdx draggedObj

/-- `FolderView.handleRemoveFromFolder` (src/components/SearchBar.tsx lines
319-322): `folder.children?.filter(c => c.id !== itemId) || []`, and the
folder with those children is handed to `onUpdateFolder`. -/
def folderViewRemoveChild (folder : BookmarkItem) (itemId : String) :
    BookmarkItem :=
  let updatedChildren :=
    match folder.children with
    | some cs => cs.filter (fun c => !(c.id == itemId))
    | none => []
  folder.setChildren updatedChildren

/-- `App.handleUpdateFolder` (src/App.tsx lines 166-171): replace the entry
with the updated folder's id in the root list. -/
def handleUpdateFolder (items : List BookmarkItem)
    (updatedFolder : BookmarkItem) : List BookmarkItem :=
  items.map (fun i => if i.id == updatedFolder.id then updatedFolder else i)

/-- The context-menu Remove path of the folder view:
`FolderView.handleRemoveFromFolder` feeding `onUpdateFolder`, which is
`App.handleUpdateFolder`.  The child is filtered out and re-added
nowhere. -/
def contextMenuRemove (items : List BookmarkItem) (folder : BookmarkItem)
    (itemId : String) : List BookmarkItem :=
  handleUpdateFolder items (folderViewRemoveChild folder itemId)

/-- `App.handleRemoveFromFolder` (src/App.tsx lines 173-188), reached from
the folder view's backdrop drop: filter the child out of the open folder,
replace the folder in the root list, and append the extracted child at the
end of the root list. -/
def handleRemoveFromFolder (items : List BookmarkItem)
    (openFolder item : BookmarkItem) : List BookmarkItem :=
  let updatedChildren :=
    match openFolder.children with
    | some cs => cs.filter (fun c => !(c.id == item.id))
    | none => []
  let updatedFolder := openFolder.setChildren updatedChildren
  (items.map (fun i => if i.id == updatedFolder.id then updatedFolder else i))
    ++ [item]

mutual

/-- All ids in an entry's subtree: its own id followed by the ids of its
children's subtrees. -/
def treeIds : BookmarkItem → List String
  | .mk i _ _ _ _ none => [i]
  | .mk i _ _ _ _ (some cs) => i :: treeIdsList cs

def treeIdsList : List BookmarkItem → List String
  | [] => []
  | c :: cs => treeIds c ++ treeIdsList cs

end

/-- All ids present in the whole tree of a top-level list. -/
def allIds (l : List BookmarkItem) : List String := treeIdsList l

mutual

/-- The one-level-nesting invariant at an entry: if the entry is a Folder,
all its children are of type `link`; its children satisfy the invariant
recursively. -/
def noNestedFolder : BookmarkItem → Bool
  | .mk _ _ _ _ _ none => true
  | .mk _ t _ _ _ (some cs) =>
      ((!(t == ItemType.folder)) || cs.all (fun c => c.type == ItemType.link))
        && noNestedFolderList cs

def noNestedFolderList : List BookmarkItem → Bool
  | [] => true
  | c :: cs => noNestedFolder c && noNestedFolderList cs

end

section Fixtures

/-- A well-formed Link with id `a`. -/
def linkA : BookmarkItem :=
  .mk "a" ItemType.link "A" (some "https://a.example") none none

/-- A well-formed Link with id `b`. -/
def linkB : BookmarkItem :=
  .mk "b" ItemType.link "B" (some "https://b.example") none none

/-- A well-formed Link with id `c`. -/
def linkC : BookmarkItem :=
  .mk "c" ItemType.link "C" (some "https://c.example") none none

/-- A well-formed Folder with id `f1` and one Link child. -/
def folderF1 : BookmarkItem :=
  .mk "f1" ItemType.folder "F1" none (some "📁") (some [linkC])

/-- A well-formed Folder with id `f2` and no children. -/
def folderF2 : BookmarkItem :=
  .mk "f2" ItemType.folder "F2" none (some "📁") (some [])

/-- A well-formed Link whose id happens to be the string `folder-0`. -/
def linkP : BookmarkItem :=
  .mk "folder-0" ItemType.link "P" (some "https://p.example") none none

end Fixtures

/-! ### Helper lemmas about the list primitives -/

theorem find?_first (p : BookmarkItem → Bool) (l₁ l₂ : List BookmarkItem)
    (a : BookmarkItem) (h₁ : ∀ b ∈ l₁, p b = false) (ha : p a = true) :
    (l₁ ++ a :: l₂).find? p = some a := by
  induction l₁ with
  | nil => simp [List.find?, ha]
  | cons b l₁ ih =>
    have hb : p b = false := h₁ b (by simp)
    simp only [List.cons_append, List.find?, hb]
    exact ih fun c hc => h₁ c (by simp [hc])

theorem eraseP_first (p : BookmarkItem → Bool) (l₁ l₂ : List BookmarkItem)
    (a : BookmarkItem) (h₁ : ∀ b ∈ l₁, p b = false) (ha : p a = true) :
    (l₁ ++ a :: l₂).eraseP p = l₁ ++ l₂ := by
  induction l₁ with
  | nil => simp [List.eraseP, ha]
  | cons b l₁ ih =>
    have hb : p b = false := h₁ b (by simp)
    have ih' := ih fun c hc => h₁ c (by simp [hc])
    simp [List.eraseP_cons, hb, ih']

theorem findIdx?_first_aux (p : BookmarkItem → Bool) (l₁ l₂ : List BookmarkItem)
    (a : BookmarkItem) (h₁ : ∀ b ∈ l₁, p b = false) (ha : p a = true)
    (i : Nat) : List.findIdx? p (l₁ ++ a :: l₂) i = some (i + l₁.length) := by
  induction l₁ generalizing i with
  | nil => simp [List.findIdx?_cons, ha]
  | cons b l₁ ih =>
    have hb : p b = false := h₁ b (by simp)
    rw [List.cons_append, List.findIdx?_cons]
    simp only [hb, Bool.false_eq_true, if_false]
    rw [ih (fun c hc => h₁ c (by simp [hc])) (i + 1)]
    congr 1
    simp
    omega

theorem findIdx?_first (p : BookmarkItem → Bool) (l₁ l₂ : List BookmarkItem)
    (a : BookmarkItem) (h₁ : ∀ b ∈ l₁, p b = false) (ha : p a = true) :
    (l₁ ++ a :: l₂).findIdx? p = some l₁.length := by
  have := findIdx?_first_aux p l₁ l₂ a h₁ ha 0
  simpa using this

theorem insertAtNat_at_append (l₁ l₂ : List BookmarkItem) (a : BookmarkItem) :
    insertAtNat l₁.length a (l₁ ++ l₂) = l₁ ++ a :: l₂ := by
  induction l₁ with
  | nil => rfl
  | cons b l₁ ih => simp [insertAtNat, ih]

theorem insertAtNat_succ_append (l₁ l₂ : List BookmarkItem)
    (a b : BookmarkItem) :
    insertAtNat (l₁.length + 1) a (l₁ ++ b :: l₂) = l₁ ++ b :: a :: l₂ := by
  induction l₁ with
  | nil => rfl
  | cons c l₁ ih => simp [insertAtNat, ih]

theorem insertAtNat_perm (n : Nat) (a : BookmarkItem)
    (l : List BookmarkItem) : (insertAtNat n a l).Perm (a :: l) := by
  induction l generalizing n with
  | nil => cases n <;> simp [insertAtNat]
  | cons b l ih =>
    cases n with
    | zero => simp [insertAtNat]
    | succ n =>
      simp only [insertAtNat]
      exact ((ih n).cons b).trans (List.Perm.swap a b l)

theorem set_at_append (l₁ l₂ : List BookmarkItem) (a b : BookmarkItem) :
    (l₁ ++ b :: l₂).set l₁.length a = l₁ ++ a :: l₂ := by
  induction l₁ with
  | nil => rfl
  | cons c l₁ ih => simp [List.set, ih]

theorem filter_drop_first (l₁ l₂ : List BookmarkItem) (a : BookmarkItem)
    (p : BookmarkItem → Bool)
    (h : ∀ b ∈ l₁ ++ l₂, p b = false) (ha : p a = true) :
    (l₁ ++ a :: l₂).filter (fun c => !(p c)) = l₁ ++ l₂ := by
  induction l₁ with
  | nil =>
    simp only [List.nil_append, List.filter, ha, Bool.not_true]
    exact List.filter_eq_self.mpr fun b hb => by
      simp [h b (by simp [hb])]
  | cons b l₁ ih =>
    have hb : p b = false := h b (by simp)
    simp only [List.cons_append, List.filter, hb, Bool.not_false]
    simp only [List.cons_inj_right]
    exact ih fun c hc => h c (by simp at hc ⊢; tauto)

/-! ### Helper lemmas about tree ids and the nesting invariant -/

theorem treeIdsList_append (l₁ l₂ : List BookmarkItem) :
    treeIdsList (l₁ ++ l₂) = treeIdsList l₁ ++ treeIdsList l₂ := by
  induction l₁ with
  | nil => simp [treeIdsList]
  | cons a l₁ ih => simp [treeIdsList, ih]

theorem treeIdsList_cons (a : BookmarkItem) (l : List BookmarkItem) :
    treeIdsList (a :: l) = treeIds a ++ treeIdsList l := rfl

theorem treeIds_eq (a : BookmarkItem) :
    treeIds a = a.id :: treeIdsList (a.children.getD []) := by
  cases a with
  | mk i t ti u ic c =>
    cases c <;> rfl

theorem treeIds_setChildren (a : BookmarkItem) (cs : List BookmarkItem) :
    treeIds (a.setChildren cs) = a.id :: treeIdsList cs := by
  cases a with
  | mk i t ti u ic c => rfl

theorem treeIdsList_perm {l₁ l₂ : List BookmarkItem} (h : l₁.Perm l₂) :
    (treeIdsList l₁).Perm (treeIdsList l₂) := by
  induction h with
  | nil => exact List.Perm.refl _
  | cons a _ ih =>
    simp only [treeIdsList_cons]
    exact ih.append_left (treeIds a)
  | swap a b l =>
    simp only [treeIdsList_cons, ← List.append_assoc]
    exact (List.perm_append_comm.append_right (treeIdsList l))
  | trans _ _ ih₁ ih₂ => exact ih₁.trans ih₂

theorem noNestedFolderList_iff (l : List BookmarkItem) :
    noNestedFolderList l = true ↔ ∀ c ∈ l, noNestedFolder c = true := by
  induction l with
  | nil => simp [noNestedFolderList]
  | cons a l ih =>
    simp only [noNestedFolderList, Bool.and_eq_true, ih, List.mem_cons]
    constructor
    · rintro ⟨h₁, h₂⟩ c (rfl | hc)
      · exact h₁
      · exact h₂ c hc
    · intro h
      exact ⟨h a (Or.inl rfl), fun c hc => h c (Or.inr hc)⟩

theorem noNestedFolder_setChildren (a : BookmarkItem)
    (cs : List BookmarkItem) :
    noNestedFolder (a.setChildren cs) =
      (((!(a.type == ItemType.folder))
          || cs.all (fun c => c.type == ItemType.link))
        && noNestedFolderList cs) := by
  cases a with
  | mk i t ti u ic c => rfl

theorem jsFindIndex_first (p : BookmarkItem → Bool) (l₁ l₂ : List BookmarkItem)
    (a : BookmarkItem) (h₁ : ∀ b ∈ l₁, p b = false) (ha : p a = true) :
    jsFindIndex p (l₁ ++ a :: l₂) = (l₁.length : Int) := by
  unfold jsFindIndex
  rw [findIdx?_first p l₁ l₂ a h₁ ha]

theorem jsSetElem_at (l₁ l₂ : List BookmarkItem) (a b : BookmarkItem) :
    jsSetElem (l₁ ++ b :: l₂) (l₁.length : Int) a = l₁ ++ a :: l₂ := by
  unfold jsSetElem
  rw [if_pos]
  · simp [set_at_append l₁ l₂ a b]
  · refine ⟨Int.ofNat_nonneg _, ?_⟩
    simp

theorem jsSpliceInsert_at (l₁ l₂ : List BookmarkItem) (a b : BookmarkItem) :
    jsSpliceInsert (l₁ ++ b :: l₂) (l₁.length : Int) a = l₁ ++ a :: b :: l₂ := by
  unfold jsSpliceInsert jsSpliceStart
  rw [if_neg (by omega)]
  have hmin : min (Int.toNat (l₁.length : Int)) (l₁ ++ b :: l₂).length
      = l₁.length := by
    simp
  rw [hmin]
  exact insertAtNat_at_append l₁ (b :: l₂) a

theorem jsSpliceInsert_succ (l₁ l₂ : List BookmarkItem) (a b : BookmarkItem) :
    jsSpliceInsert (l₁ ++ b :: l₂) ((l₁.length : Int) + 1) a
      = l₁ ++ b :: a :: l₂ := by
  unfold jsSpliceInsert jsSpliceStart
  rw [if_neg (by omega)]
  have hmin : min (Int.toNat ((l₁.length : Int) + 1)) (l₁ ++ b :: l₂).length
      = l₁.length + 1 := by
    simp
  rw [hmin]
  exact insertAtNat_succ_append l₁ l₂ a b

/-! ### The shape of `handleDrop` when both entries are present

The hypotheses say that `draggedItem` is the first entry of the list whose
id matches the dragged id, and that `targetItem` is the first entry of the
remaining list whose id matches the target id -- exactly the situation the
UI produces, where both objects are taken from the rendered list itself. -/

theorem handleDrop_shape (draggedItem targetItem : BookmarkItem)
    (x y w h : ℚ) (now : Nat) (iv₁ iv₂ jv₁ jv₂ : List BookmarkItem)
    (hne : draggedItem.id ≠ targetItem.id)
    (hiv : ∀ b ∈ iv₁, (b.id == draggedItem.id) = false)
    (hj : iv₁ ++ iv₂ = jv₁ ++ targetItem :: jv₂)
    (hjv : ∀ b ∈ jv₁, (b.id == targetItem.id) = false) :
    handleDrop (iv₁ ++ draggedItem :: iv₂) draggedItem targetItem x y w h now
      = if (x > w * (1/4) ∧ x < w * (3/4) ∧ y > h * (1/4) ∧ y < h * (3/4)) ∧
            ¬(draggedItem.type = ItemType.folder ∧
              targetItem.type = ItemType.folder) then
          (if targetItem.type = ItemType.folder then
            jv₁ ++ targetItem.setChildren
              ((targetItem.children.getD []) ++ [draggedItem]) :: jv₂
          else
            jv₁ ++ newFolder now targetItem draggedItem :: jv₂)
        else
          (if x > w / 2 then jv₁ ++ targetItem :: draggedItem :: jv₂
           else jv₁ ++ draggedItem :: targetItem :: jv₂) := by
  have hfind : (iv₁ ++ draggedItem :: iv₂).find?
      (fun i => i.id == draggedItem.id) = some draggedItem :=
    find?_first _ _ _ _ hiv (by simp)
  have herase : (iv₁ ++ draggedItem :: iv₂).eraseP
      (fun i => i.id == draggedItem.id) = jv₁ ++ targetItem :: jv₂ := by
    rw [eraseP_first _ _ _ _ hiv (by simp), hj]
  have hidx : jsFindIndex (fun i => i.id == targetItem.id)
      (jv₁ ++ targetItem :: jv₂) = (jv₁.length : Int) :=
    jsFindIndex_first _ _ _ _ hjv (by simp)
  have key : (decide (x > w * (1/4)) && decide (x < w * (3/4)) &&
      decide (y > h * (1/4)) && decide (y < h * (3/4)) &&
      !(decide (draggedItem.type = ItemType.folder) &&
        decide (targetItem.type = ItemType.folder))) = true ↔
      ((x > w * (1/4) ∧ x < w * (3/4) ∧ y > h * (1/4) ∧ y < h * (3/4)) ∧
        ¬(draggedItem.type = ItemType.folder ∧
          targetItem.type = ItemType.folder)) := by
    simp only [Bool.and_eq_true, decide_eq_true_eq, Bool.not_eq_true',
      Bool.and_eq_false_iff, decide_eq_false_iff_not]
    tauto
  unfold handleDrop
  rw [if_neg hne, hfind]
  simp only [herase, hidx]
  by_cases hC : (x > w * (1/4) ∧ x < w * (3/4) ∧ y > h * (1/4) ∧
      y < h * (3/4)) ∧ ¬(draggedItem.type = ItemType.folder ∧
      targetItem.type = ItemType.folder)
  · rw [if_pos hC, key.mpr hC]
    simp only [if_true]
    by_cases ht : targetItem.type = ItemType.folder
    · rw [if_pos ht, if_pos ht, jsSetElem_at]
    · rw [if_neg ht, if_neg ht, jsSetElem_at]
  · have hbf : (decide (x > w * (1/4)) && decide (x < w * (3/4)) &&
        decide (y > h * (1/4)) && decide (y < h * (3/4)) &&
        !(decide (draggedItem.type = ItemType.folder) &&
          decide (targetItem.type = ItemType.folder))) = false :=
      Bool.eq_false_iff.mpr fun hh => hC (key.mp hh)
    rw [if_neg hC, hbf]
    simp only [Bool.false_eq_true, if_false]
    by_cases hx : x > w / 2
    · rw [if_pos hx]
      have hdx : (decide (x > w / 2)) = true := decide_eq_true hx
      rw [hdx]
      simp only [if_true]
      exact jsSpliceInsert_succ jv₁ jv₂ draggedItem targetItem
    · rw [if_neg hx]
      have hdx : (decide (x > w / 2)) = false :=
        decide_eq_false hx
      rw [hdx]
      simp only [Bool.false_eq_true, if_false]
      exact jsSpliceInsert_at jv₁ jv₂ draggedItem targetItem

theorem noNestedFolder_eq (a : BookmarkItem) :
    noNestedFolder a =
      (((!(a.type == ItemType.folder))
          || (a.children.getD []).all (fun c => c.type == ItemType.link))
        && noNestedFolderList (a.children.getD [])) := by
  cases a with
  | mk i t ti u ic c =>
    cases c <;> simp [noNestedFolder, noNestedFolderList,
      BookmarkItem.type, BookmarkItem.children]

theorem mem_jsSetElem {c a : BookmarkItem} {l : List BookmarkItem} {i : Int}
    (hc : c ∈ jsSetElem l i a) : c ∈ l ∨ c = a := by
  unfold jsSetElem at hc
  split at hc
  · exact List.mem_or_eq_of_mem_set hc
  · exact Or.inl hc

theorem mem_jsSpliceInsert {c a : BookmarkItem} {l : List BookmarkItem}
    {st : Int} (hc : c ∈ jsSpliceInsert l st a) : c = a ∨ c ∈ l := by
  unfold jsSpliceInsert at hc
  have hm := (insertAtNat_perm (jsSpliceStart st l.length) a l).mem_iff.mp hc
  simpa using hm

theorem id_setChildren (a : BookmarkItem) (cs : List BookmarkItem) :
    (a.setChildren cs).id = a.id := by
  cases a with
  | mk i t ti u ic c => rfl

theorem map_replace_eq (g : BookmarkItem) (l : List BookmarkItem)
    (h : ∀ b ∈ l, (b.id == g.id) = false) :
    l.map (fun i => if i.id == g.id then g else i) = l := by
  induction l with
  | nil => rfl
  | cons b l ih =>
    have hb : (b.id == g.id) = false := h b (by simp)
    simp only [List.map_cons, hb, Bool.false_eq_true, if_false,
      List.cons_inj_right]
    exact ih fun c hc => h c (by simp [hc])

/-! ### The claims -/

/-- C9: the intent classification computed continuously during drag-over and
the classification recomputed at drop time are the same function of the
inputs `(x, y, W, H, dragged type, target type)`; both are pure Lean
functions, hence deterministic with no hidden state. -/
theorem c9_classifications_agree (draggedType targetType : ItemType)
    (x y w h : ℚ) :
    classifyDragOver draggedType targetType x y w h
      = classifyDrop draggedType targetType x y w h := rfl

/-- C6: for a 100x100 target box with merging permitted (link over link),
the classification maps (50,50) to merge, (10,50) to reorder-before,
(90,50) to reorder-after, (26,26) to merge and (24,50) to reorder-before,
matching the strict merge-zone inequalities 0.25W < x < 0.75W,
0.25H < y < 0.75H. -/
theorem c6_geometry_boundary :
    classifyDragOver ItemType.link ItemType.link 50 50 100 100
        = DragAction.merge ∧
    classifyDragOver ItemType.link ItemType.link 10 50 100 100
        = DragAction.reorderBefore ∧
    classifyDragOver ItemType.link ItemType.link 90 50 100 100
        = DragAction.reorderAfter ∧
    classifyDragOver ItemType.link ItemType.link 26 26 100 100
        = DragAction.merge ∧
    classifyDragOver ItemType.link ItemType.link 24 50 100 100
        = DragAction.reorderBefore := by
  refine ⟨?_, ?_, ?_, ?_, ?_⟩ <;>
    first
      | (norm_num [classifyDragOver]; done)
      | (norm_num [classifyDragOver]; decide)

/-- C8 counterexample: for the degenerate 0x0 box the claim says every
pointer position classifies as reorder-before, but the point (5,0)
classifies as reorder-after in both computations. -/
theorem c8_counterexample :
    classifyDragOver ItemType.link ItemType.link 5 0 0 0
        = DragAction.reorderAfter ∧
    classifyDrop ItemType.link ItemType.link 5 0 0 0
        = DragAction.reorderAfter ∧
    DragAction.reorderAfter ≠ DragAction.reorderBefore := by
  refine ⟨?_, ?_, by decide⟩ <;> norm_num [classifyDragOver, classifyDrop]

/-- C8 amended: for a zero-width or zero-height box the classification is
total (never crashes, no division is evaluated on a zero denominator in the
model), the merge zone is empty, and the result is reorder-after when
`x > W/2` and reorder-before otherwise (not reorder-before for every
position). -/
theorem c8_amended (draggedType targetType : ItemType) (x y w h : ℚ)
    (hz : w = 0 ∨ h = 0) :
    classifyDragOver draggedType targetType x y w h
        = (if x > w / 2 then DragAction.reorderAfter
           else DragAction.reorderBefore) ∧
    classifyDrop draggedType targetType x y w h
        = (if x > w / 2 then DragAction.reorderAfter
           else DragAction.reorderBefore) := by
  have hknot : ¬(x > w * (1/4) ∧ x < w * (3/4) ∧ y > h * (1/4) ∧
      y < h * (3/4)) := by
    rcases hz with rfl | rfl
    · rintro ⟨h1, h2, -, -⟩
      rw [zero_mul] at h1 h2
      linarith
    · rintro ⟨-, -, h3, h4⟩
      rw [zero_mul] at h3 h4
      linarith
  have hcf : (decide (x > w * (1/4)) && decide (x < w * (3/4)) &&
      decide (y > h * (1/4)) && decide (y < h * (3/4))) = false := by
    rw [Bool.eq_false_iff]
    intro hb
    apply hknot
    simp only [Bool.and_eq_true, decide_eq_true_eq] at hb
    tauto
  have hmain : classifyDragOver draggedType targetType x y w h
      = (if x > w / 2 then DragAction.reorderAfter
         else DragAction.reorderBefore) := by
    unfold classifyDragOver
    simp only [hcf, Bool.false_and, Bool.false_eq_true, if_false]
    by_cases hx : x > w / 2
    · rw [decide_eq_true hx, if_pos hx]
      simp
    · rw [decide_eq_false hx, if_neg hx]
      simp
  exact ⟨hmain, hmain⟩

/-- C8 amended, witness at the concrete degenerate box `W = 0`, `H = 5`,
pointer `(3, 1)`. -/
theorem c8_amended_witness :
    classifyDragOver ItemType.link ItemType.link 3 1 0 5
        = DragAction.reorderAfter ∧
    classifyDrop ItemType.link ItemType.link 3 1 0 5
        = DragAction.reorderAfter := by
  have h := c8_amended ItemType.link ItemType.link 3 1 0 5 (Or.inl rfl)
  rw [if_pos (by norm_num)] at h
  exact h

/-- C7 counterexample: with the target id (`z`) absent from the list, a
center drop is not a no-op -- it silently deletes the dragged entry from
the list (`[A, B]` becomes `[B]`). -/
theorem c7_counterexample :
    handleDrop [linkA, linkB] linkA
        (BookmarkItem.mk "z" ItemType.link "Z" none none none)
        50 50 100 100 0
      ≠ [linkA, linkB] := by
  intro heq
  have hres : (handleDrop [linkA, linkB] linkA
      (BookmarkItem.mk "z" ItemType.link "Z" none none none)
      50 50 100 100 0).map BookmarkItem.id = ["b"] := by
    norm_num [handleDrop, jsFindIndex, jsSetElem, newFolder, linkA, linkB,
      BookmarkItem.id, BookmarkItem.type, BookmarkItem.children,
      BookmarkItem.setChildren]
    decide
  rw [heq] at hres
  exact absurd hres (by decide)

/-- C7 amended: the drop is a no-op returning the input unchanged whenever
the dragged id equals the target id or the dragged id is absent from the
list; when only the target id is absent the operation is not a no-op (see
the counterexample). -/
theorem c7_amended (items : List BookmarkItem)
    (draggedItem targetItem : BookmarkItem) (x y w h : ℚ) (now : Nat) :
    (draggedItem.id = targetItem.id →
      handleDrop items draggedItem targetItem x y w h now = items) ∧
    (items.find? (fun i => i.id == draggedItem.id) = none →
      handleDrop items draggedItem targetItem x y w h now = items) := by
  constructor
  · intro hid
    unfold handleDrop
    rw [if_pos hid]
  · intro hf
    unfold handleDrop
    by_cases hid : draggedItem.id = targetItem.id
    · rw [if_pos hid]
    · rw [if_neg hid, hf]

/-- C7 amended, witness: dropping `A` on itself and dropping an absent `A`
on `B` both leave the list unchanged. -/
theorem c7_amended_witness :
    handleDrop [linkA] linkA linkA 50 50 100 100 0 = [linkA] ∧
    handleDrop [linkB] linkA linkB 50 50 100 100 0 = [linkB] :=
  ⟨(c7_amended [linkA] linkA linkA 50 50 100 100 0).1 rfl,
   (c7_amended [linkB] linkA linkB 50 50 100 100 0).2 rfl⟩

/-- C5: reordering removes the dragged entry, re-finds the target in the
shortened list, and re-inserts the dragged entry immediately after the
target when `x > W/2` and immediately before it otherwise. -/
theorem c5_reorder_correct (draggedItem targetItem : BookmarkItem)
    (x y w h : ℚ) (now : Nat) (iv₁ iv₂ jv₁ jv₂ : List BookmarkItem)
    (hne : draggedItem.id ≠ targetItem.id)
    (hiv : ∀ b ∈ iv₁, (b.id == draggedItem.id) = false)
    (hj : iv₁ ++ iv₂ = jv₁ ++ targetItem :: jv₂)
    (hjv : ∀ b ∈ jv₁, (b.id == targetItem.id) = false)
    (hnm : ¬((x > w * (1/4) ∧ x < w * (3/4) ∧ y > h * (1/4) ∧
        y < h * (3/4)) ∧
      ¬(draggedItem.type = ItemType.folder ∧
        targetItem.type = ItemType.folder))) :
    (x > w / 2 →
      handleDrop (iv₁ ++ draggedItem :: iv₂) draggedItem targetItem
          x y w h now
        = jv₁ ++ targetItem :: draggedItem :: jv₂) ∧
    (¬(x > w / 2) →
      handleDrop (iv₁ ++ draggedItem :: iv₂) draggedItem targetItem
          x y w h now
        = jv₁ ++ draggedItem :: targetItem :: jv₂) := by
  rw [handleDrop_shape draggedItem targetItem x y w h now iv₁ iv₂ jv₁ jv₂
    hne hiv hj hjv, if_neg hnm]
  constructor <;> intro hx
  · rw [if_pos hx]
  · rw [if_neg hx]

/-- C5 witness: on `[A, B, C]`, moving `A` after `C` yields `[B, C, A]` and
moving `C` before `A` yields `[C, A, B]`. -/
theorem c5_reorder_correct_witness :
    handleDrop [linkA, linkB, linkC] linkA linkC 90 50 100 100 0
        = [linkB, linkC, linkA] ∧
    handleDrop [linkA, linkB, linkC] linkC linkA 10 50 100 100 0
        = [linkC, linkA, linkB] := by
  constructor
  · have h := (c5_reorder_correct linkA linkC 90 50 100 100 0
        [] [linkB, linkC] [linkB] []
        (by decide) (by simp) rfl (by decide)
        (fun hcontra => absurd hcontra.1.2.1 (by norm_num))).1
      (by norm_num)
    simpa using h
  · have h := (c5_reorder_correct linkC linkA 10 50 100 100 0
        [linkA, linkB] [] [] [linkB]
        (by decide) (by decide) rfl (by simp)
        (fun hcontra => absurd hcontra.1.1 (by norm_num))).2
      (by norm_num)
    simpa using h

/-- C4: with both entries present and the pointer in the merge zone:
(1) if the target is a Link, the target's position is replaced by a newly
synthesised Folder with children `[target, dragged]` in that order, both
source entries leaving the top level; (2) if the target is a Folder and the
dragged entry is not a Folder, the dragged entry is appended to the end of
the target folder's children and removed from the top level, the rest of
the top level unchanged. -/
theorem c4_merge_correct (draggedItem targetItem : BookmarkItem)
    (x y w h : ℚ) (now : Nat) (iv₁ iv₂ jv₁ jv₂ : List BookmarkItem)
    (hne : draggedItem.id ≠ targetItem.id)
    (hiv : ∀ b ∈ iv₁, (b.id == draggedItem.id) = false)
    (hj : iv₁ ++ iv₂ = jv₁ ++ targetItem :: jv₂)
    (hjv : ∀ b ∈ jv₁, (b.id == targetItem.id) = false)
    (hcen : x > w * (1/4) ∧ x < w * (3/4) ∧ y > h * (1/4) ∧ y < h * (3/4)) :
    (targetItem.type = ItemType.link →
      handleDrop (iv₁ ++ draggedItem :: iv₂) draggedItem targetItem
          x y w h now
        = jv₁ ++ newFolder now targetItem draggedItem :: jv₂) ∧
    (targetItem.type = ItemType.folder →
      draggedItem.type ≠ ItemType.folder →
      handleDrop (iv₁ ++ draggedItem :: iv₂) draggedItem targetItem
          x y w h now
        = jv₁ ++ targetItem.setChildren
            ((targetItem.children.getD []) ++ [draggedItem]) :: jv₂) := by
  rw [handleDrop_shape draggedItem targetItem x y w h now iv₁ iv₂ jv₁ jv₂
    hne hiv hj hjv]
  constructor
  · intro htl
    rw [if_pos ⟨hcen, fun hb => by rw [htl] at hb; exact absurd hb.2 (by decide)⟩]
    rw [if_neg (by rw [htl]; decide)]
  · intro htf hdn
    rw [if_pos ⟨hcen, fun hb => hdn hb.1⟩]
    rw [if_pos htf]

/-- C4 witness: merging Link `A` into Link `B` on `[A, B]` yields the single
synthesised folder with children `[B, A]`, and merging Link `A` into Folder
`F1` (children `[C]`) appends `A` to the children, top level otherwise
unchanged. -/
theorem c4_merge_correct_witness :
    handleDrop [linkA, linkB] linkA linkB 50 50 100 100 0
        = [newFolder 0 linkB linkA] ∧
    handleDrop [linkA, folderF1] linkA folderF1 50 50 100 100 0
        = [folderF1.setChildren [linkC, linkA]] := by
  constructor
  · have h := (c4_merge_correct linkA linkB 50 50 100 100 0
        [] [linkB] [] []
        (by decide) (by simp) rfl (by simp)
        (by norm_num)).1 rfl
    simpa using h
  · have h := (c4_merge_correct linkA folderF1 50 50 100 100 0
        [] [folderF1] [] []
        (by decide) (by simp) rfl (by simp)
        (by norm_num)).2 rfl (by decide)
    simpa using h

/-- C2 counterexample: a center drop of Folder `F1` onto Folder `F2` does
not return the list unchanged -- it falls through to the reorder branch and
yields `[F2, F1]`. -/
theorem c2_counterexample :
    handleDrop [folderF1, folderF2] folderF1 folderF2 60 50 100 100 0
      ≠ [folderF1, folderF2] := by
  intro heq
  have hres : (handleDrop [folderF1, folderF2] folderF1 folderF2
      60 50 100 100 0).map BookmarkItem.id = ["f2", "f1"] := by
    norm_num [handleDrop, jsFindIndex, jsSpliceInsert, jsSpliceStart,
      insertAtNat, folderF1, folderF2, linkC, BookmarkItem.id,
      BookmarkItem.type, BookmarkItem.children, BookmarkItem.setChildren]
    decide
  rw [heq] at hres
  exact absurd hres (by decide)

/-- C2 amended: a drop of one Folder onto another never merges -- no
children change and no entry is created or destroyed; the result is always
a permutation of the input list (the drop falls through to the reorder
branch, so the order may change). -/
theorem c2_amended (items : List BookmarkItem)
    (draggedItem targetItem : BookmarkItem) (x y w h : ℚ) (now : Nat)
    (hd : draggedItem.type = ItemType.folder)
    (ht : targetItem.type = ItemType.folder) :
    (handleDrop items draggedItem targetItem x y w h now).Perm items := by
  unfold handleDrop
  by_cases hid : draggedItem.id = targetItem.id
  · rw [if_pos hid]
  · rw [if_neg hid]
    cases hfind : items.find? (fun i => i.id == draggedItem.id) with
    | none => exact List.Perm.refl _
    | some draggedObj =>
      have hmem := List.mem_of_find?_eq_some hfind
      have hp := List.find?_some hfind
      obtain ⟨a, l₁, l₂, hl₁, hpa, hitems, herase⟩ :=
        @List.exists_of_eraseP _ (fun i => i.id == draggedItem.id)
          items draggedObj hmem hp
      have ha : a = draggedObj := by
        have hf2 := find?_first _ l₁ l₂ a
          (fun b hb => Bool.eq_false_iff.mpr (hl₁ b hb)) hpa
        rw [hitems, hf2] at hfind
        exact Option.some.inj hfind
      have hcm : (!(decide (draggedItem.type = ItemType.folder) &&
          decide (targetItem.type = ItemType.folder))) = false := by
        simp [hd, ht]
      simp only [hcm, Bool.and_false, Bool.false_eq_true, if_false]
      have hperm : ∀ st : Int,
          (jsSpliceInsert (l₁ ++ l₂) st draggedObj).Perm items := by
        intro st
        unfold jsSpliceInsert
        refine (insertAtNat_perm _ _ _).trans ?_
        rw [hitems, ← ha]
        exact List.perm_middle.symm
      rw [herase]
      split
      · exact hperm _
      · exact hperm _

/-- C2 amended, witness: the center drop of `F1` onto `F2` yields a
permutation of the input list. -/
theorem c2_amended_witness :
    (handleDrop [folderF1, folderF2] folderF1 folderF2
        60 50 100 100 0).Perm [folderF1, folderF2] :=
  c2_amended [folderF1, folderF2] folderF1 folderF2 60 50 100 100 0 rfl rfl

/-- C1 counterexample: the well-formed list `[A, F1]` (Link `A`, Folder
`F1`) violates the one-level-nesting claim after a single center drop of
the Folder `F1` onto the Link `A`: the synthesised folder's children
contain `F1`, a Folder. -/
theorem c1_counterexample :
    noNestedFolderList [linkA, folderF1] = true ∧
    noNestedFolderList
      (handleDrop [linkA, folderF1] folderF1 linkA 50 50 100 100 0)
      = false := by
  constructor
  · decide
  · norm_num [handleDrop, jsFindIndex, jsSetElem, newFolder, linkA,
      folderF1, linkC, noNestedFolder, noNestedFolderList, List.all,
      BookmarkItem.id, BookmarkItem.type, BookmarkItem.children,
      BookmarkItem.setChildren]
    decide

/-- C1 amended: a drop preserves the one-level-nesting invariant provided
no Folder is merged into a Link: if the list and the target are well
formed, the dragged entry is the first list entry carrying its id, and a
dragged Folder is only dropped on a Folder or outside the merge zone, then
no Folder's children contains a Folder afterwards.  (The unrestricted
claim fails: merging a dragged Folder into a target Link nests it, see the
counterexample.) -/
theorem c1_amended (items : List BookmarkItem)
    (draggedItem targetItem : BookmarkItem) (x y w h : ℚ) (now : Nat)
    (hwf : noNestedFolderList items = true)
    (hwt : noNestedFolder targetItem = true)
    (hfind : items.find? (fun i => i.id == draggedItem.id)
      = some draggedItem)
    (hnofl : draggedItem.type = ItemType.folder →
      targetItem.type = ItemType.folder ∨
      ¬(x > w * (1/4) ∧ x < w * (3/4) ∧ y > h * (1/4) ∧ y < h * (3/4))) :
    noNestedFolderList
      (handleDrop items draggedItem targetItem x y w h now) = true := by
  have hdmem : draggedItem ∈ items := List.mem_of_find?_eq_some hfind
  have hwd : noNestedFolder draggedItem = true :=
    (noNestedFolderList_iff items).mp hwf draggedItem hdmem
  have herased : noNestedFolderList
      (items.eraseP (fun i => i.id == draggedItem.id)) = true :=
    (noNestedFolderList_iff _).mpr fun c hc =>
      (noNestedFolderList_iff items).mp hwf c
        ((List.eraseP_sublist items).subset hc)
  unfold handleDrop
  by_cases hid : draggedItem.id = targetItem.id
  · rw [if_pos hid]
    exact hwf
  · rw [if_neg hid, hfind]
    by_cases hM : (decide (x > w * (1/4)) && decide (x < w * (3/4)) &&
        decide (y > h * (1/4)) && decide (y < h * (3/4)) &&
        !(decide (draggedItem.type = ItemType.folder) &&
          decide (targetItem.type = ItemType.folder))) = true
    · simp only [hM, if_true]
      by_cases ht : targetItem.type = ItemType.folder
      · rw [if_pos ht]
        refine (noNestedFolderList_iff _).mpr fun c hc => ?_
        rcases mem_jsSetElem hc with hcl | rfl
        · exact (noNestedFolderList_iff _).mp herased c hcl
        · have hdl : draggedItem.type = ItemType.link := by
            have hM5 : (!(decide (draggedItem.type = ItemType.folder) &&
                decide (targetItem.type = ItemType.folder))) = true := by
              simp only [Bool.and_eq_true] at hM
              exact hM.2
            simp only [Bool.not_eq_true', Bool.and_eq_false_iff,
              decide_eq_false_iff_not] at hM5
            rcases hM5 with hd | htn
            · cases hdt : draggedItem.type
              · rfl
              · exact absurd hdt hd
            · exact absurd ht htn
          have htgt := hwt
          rw [noNestedFolder_eq] at htgt
          simp only [Bool.and_eq_true] at htgt
          obtain ⟨htype, hcslist⟩ := htgt
          rw [noNestedFolder_setChildren, Bool.and_eq_true]
          have htb : (targetItem.type == ItemType.folder) = true := by
            simp [ht]
          constructor
          · refine Bool.or_eq_true_iff.mpr (Or.inr ?_)
            rw [List.all_eq_true]
            intro e he
            rcases List.mem_append.mp he with he | he
            · rcases Bool.or_eq_true_iff.mp htype with hno | hall
              · rw [htb] at hno
                exact absurd hno (by decide)
              · exact List.all_eq_true.mp hall e he
            · rcases List.mem_singleton.mp he with rfl
              simp [hdl]
          · refine (noNestedFolderList_iff _).mpr fun e he => ?_
            rcases List.mem_append.mp he with he | he
            · exact (noNestedFolderList_iff _).mp hcslist e he
            · rcases List.mem_singleton.mp he with rfl
              exact hwd
      · rw [if_neg ht]
        refine (noNestedFolderList_iff _).mpr fun c hc => ?_
        rcases mem_jsSetElem hc with hcl | rfl
        · exact (noNestedFolderList_iff _).mp herased c hcl
        · have hdl : draggedItem.type = ItemType.link := by
            cases hdt : draggedItem.type
            · rfl
            · rcases hnofl hdt with htf | hnc
              · exact absurd htf ht
              · exfalso
                apply hnc
                simp only [Bool.and_eq_true, decide_eq_true_eq] at hM
                exact ⟨hM.1.1.1.1, hM.1.1.1.2, hM.1.1.2, hM.1.2⟩
          have htl : targetItem.type = ItemType.link := by
            cases htt : targetItem.type
            · rfl
            · exact absurd htt ht
          show noNestedFolder (newFolder now targetItem draggedItem) = true
          unfold newFolder
          simp only [noNestedFolder, noNestedFolderList, Bool.and_eq_true,
        List.all_cons, List.all_nil]
          refine ⟨?_, ?_, ?_, ?_⟩
          · simp [htl, hdl]
          · exact hwt
          · exact hwd
          · trivial
    · have hMf := Bool.eq_false_iff.mpr hM
      simp only [hMf, Bool.false_eq_true, if_false]
      split <;>
      · refine (noNestedFolderList_iff _).mpr fun c hc => ?_
        rcases mem_jsSpliceInsert hc with rfl | hcl
        · exact hwd
        · exact (noNestedFolderList_iff _).mp herased c hcl

/-- C1 amended, witness: a center drop of Link `A` onto Folder `F1` keeps
the tree free of nested folders. -/
theorem c1_amended_witness :
    noNestedFolderList
      (handleDrop [linkA, folderF1] linkA folderF1 50 50 100 100 0)
      = true :=
  c1_amended [linkA, folderF1] linkA folderF1 50 50 100 100 0
    (by decide) (by decide) rfl
    (fun hcontra => absurd hcontra (by decide))

theorem allIds_eq (l : List BookmarkItem) : allIds l = treeIdsList l := rfl

theorem treeIdsList_singleton (a : BookmarkItem) :
    treeIdsList [a] = treeIds a := by
  simp [treeIdsList]

theorem treeIds_newFolder (now : Nat) (t d : BookmarkItem) :
    treeIds (newFolder now t d)
      = ("folder-" ++ toString now) :: (treeIds t ++ treeIds d) := by
  simp [newFolder, treeIds, treeIdsList]

theorem treeIds_setChildren_append (t d : BookmarkItem)
    (cs : List BookmarkItem) :
    treeIds (t.setChildren (cs ++ [d]))
      = t.id :: (treeIdsList cs ++ treeIds d) := by
  rw [treeIds_setChildren, treeIdsList_append, treeIdsList_singleton]

theorem mshuffle_A (N : String) (T D J1 J2 I1 I2 : Multiset String)
    (hrel : I1 + I2 = J1 + (T + J2)) :
    J1 + ((N ::ₘ (T + D)) + J2) = N ::ₘ (I1 + (D + I2)) := by
  rw [← Multiset.singleton_add, ← Multiset.singleton_add]
  calc J1 + (({N} + (T + D)) + J2)
      = {N} + D + (J1 + (T + J2)) := by abel
    _ = {N} + D + (I1 + I2) := by rw [← hrel]
    _ = {N} + (I1 + (D + I2)) := by abel

theorem mshuffle_B (Tid : String) (C D J1 J2 I1 I2 : Multiset String)
    (hrel : I1 + I2 = J1 + ((Tid ::ₘ C) + J2)) :
    J1 + ((Tid ::ₘ (C + D)) + J2) = I1 + (D + I2) := by
  rw [← Multiset.singleton_add] at hrel ⊢
  calc J1 + (({Tid} + (C + D)) + J2)
      = D + (J1 + (({Tid} + C) + J2)) := by abel
    _ = D + (I1 + I2) := by rw [← hrel]
    _ = I1 + (D + I2) := by abel

theorem mshuffle_C (T D J1 J2 I1 I2 : Multiset String)
    (hrel : I1 + I2 = J1 + (T + J2)) :
    J1 + (T + (D + J2)) = I1 + (D + I2) := by
  calc J1 + (T + (D + J2))
      = D + (J1 + (T + J2)) := by abel
    _ = D + (I1 + I2) := by rw [← hrel]
    _ = I1 + (D + I2) := by abel

theorem mshuffle_D (T D J1 J2 I1 I2 : Multiset String)
    (hrel : I1 + I2 = J1 + (T + J2)) :
    J1 + (D + (T + J2)) = I1 + (D + I2) := by
  calc J1 + (D + (T + J2))
      = D + (J1 + (T + J2)) := by abel
    _ = D + (I1 + I2) := by rw [← hrel]
    _ = I1 + (D + I2) := by abel

/-- C3 counterexample: the freshness part of the claim fails.  With
`Date.now() = 0`, merging Link `C` into Link `B` on the list
`[P, B, C]` -- where `P` already carries the id `folder-0` -- synthesises
a folder whose id `folder-0` collides with an existing id: the tree's id
list was duplicate-free before and is not afterwards. -/
theorem c3_counterexample :
    (allIds [linkP, linkB, linkC]).Nodup ∧
    ("folder-" ++ toString 0) ∈ allIds [linkP, linkB, linkC] ∧
    ¬ (allIds
        (handleDrop [linkP, linkB, linkC] linkC linkB 50 50 100 100 0)).Nodup
    := by
  refine ⟨by decide, by decide, ?_⟩
  have hres : allIds
      (handleDrop [linkP, linkB, linkC] linkC linkB 50 50 100 100 0)
      = ["folder-0", "folder-0", "b", "c"] := by
    norm_num [handleDrop, jsFindIndex, jsSetElem, newFolder, linkP, linkB,
      linkC, allIds, treeIds, treeIdsList, BookmarkItem.id,
      BookmarkItem.type, BookmarkItem.children, BookmarkItem.setChildren]
    decide
  rw [hres]
  decide

/-- C3 amended: every valid drop conserves the multiset (hence the set) of
ids in the whole tree; synthesizing a new folder adds exactly the one id
`folder-<now>`, and that id is new only under the proviso that no existing
id already equals this string -- the timestamp-based generator does not
guarantee freshness unconditionally (see the counterexample). -/
theorem c3_amended (draggedItem targetItem : BookmarkItem)
    (x y w h : ℚ) (now : Nat) (iv₁ iv₂ jv₁ jv₂ : List BookmarkItem)
    (hne : draggedItem.id ≠ targetItem.id)
    (hiv : ∀ b ∈ iv₁, (b.id == draggedItem.id) = false)
    (hj : iv₁ ++ iv₂ = jv₁ ++ targetItem :: jv₂)
    (hjv : ∀ b ∈ jv₁, (b.id == targetItem.id) = false) :
    ((x > w * (1/4) ∧ x < w * (3/4) ∧ y > h * (1/4) ∧ y < h * (3/4)) →
      targetItem.type = ItemType.link →
      (allIds (handleDrop (iv₁ ++ draggedItem :: iv₂) draggedItem targetItem
          x y w h now)).Perm
        (("folder-" ++ toString now)
          :: allIds (iv₁ ++ draggedItem :: iv₂)) ∧
      (("folder-" ++ toString now) ∉ allIds (iv₁ ++ draggedItem :: iv₂) →
        (allIds (iv₁ ++ draggedItem :: iv₂)).Nodup →
        (allIds (handleDrop (iv₁ ++ draggedItem :: iv₂) draggedItem
          targetItem x y w h now)).Nodup)) ∧
    ((x > w * (1/4) ∧ x < w * (3/4) ∧ y > h * (1/4) ∧ y < h * (3/4)) →
      targetItem.type = ItemType.folder →
      draggedItem.type ≠ ItemType.folder →
      (allIds (handleDrop (iv₁ ++ draggedItem :: iv₂) draggedItem targetItem
          x y w h now)).Perm (allIds (iv₁ ++ draggedItem :: iv₂))) ∧
    (¬((x > w * (1/4) ∧ x < w * (3/4) ∧ y > h * (1/4) ∧ y < h * (3/4)) ∧
        ¬(draggedItem.type = ItemType.folder ∧
          targetItem.type = ItemType.folder)) →
      (allIds (handleDrop (iv₁ ++ draggedItem :: iv₂) draggedItem targetItem
          x y w h now)).Perm (allIds (iv₁ ++ draggedItem :: iv₂))) := by
  have hjid : treeIdsList iv₁ ++ treeIdsList iv₂
      = treeIdsList jv₁ ++ (treeIds targetItem ++ treeIdsList jv₂) := by
    rw [← treeIdsList_append, hj, treeIdsList_append, treeIdsList_cons]
  have hitems : allIds (iv₁ ++ draggedItem :: iv₂)
      = treeIdsList iv₁ ++ (treeIds draggedItem ++ treeIdsList iv₂) := by
    rw [allIds_eq, treeIdsList_append, treeIdsList_cons]
  rw [handleDrop_shape draggedItem targetItem x y w h now iv₁ iv₂ jv₁ jv₂
    hne hiv hj hjv]
  refine ⟨fun hcen htl => ?_, fun hcen htf hdn => ?_, fun hnm => ?_⟩
  · rw [if_pos ⟨hcen, fun hb => by
        rw [htl] at hb
        exact absurd hb.2 (by decide)⟩,
      if_neg (by rw [htl]; decide)]
    have hperm : (allIds (jv₁ ++ newFolder now targetItem draggedItem
        :: jv₂)).Perm (("folder-" ++ toString now)
          :: allIds (iv₁ ++ draggedItem :: iv₂)) := by
      rw [← Multiset.coe_eq_coe]
      have h1 : allIds (jv₁ ++ newFolder now targetItem draggedItem :: jv₂)
          = treeIdsList jv₁ ++ ((("folder-" ++ toString now)
            :: (treeIds targetItem ++ treeIds draggedItem))
              ++ treeIdsList jv₂) := by
        rw [allIds_eq, treeIdsList_append, treeIdsList_cons,
          treeIds_newFolder]
      rw [h1, hitems]
      have hjm : (↑(treeIdsList iv₁ ++ treeIdsList iv₂) : Multiset String)
          = ↑(treeIdsList jv₁ ++ (treeIds targetItem ++ treeIdsList jv₂))
          := by rw [hjid]
      simp only [← Multiset.coe_add, ← Multiset.cons_coe] at hjm ⊢
      exact mshuffle_A _ _ _ _ _ _ _ hjm.symm.symm
    refine ⟨hperm, fun hnotin hnd => ?_⟩
    exact (hperm.nodup_iff).mpr (List.nodup_cons.mpr ⟨hnotin, hnd⟩)
  · rw [if_pos ⟨hcen, fun hb => hdn hb.1⟩, if_pos htf]
    rw [← Multiset.coe_eq_coe]
    have h1 : allIds (jv₁ ++ targetItem.setChildren
        ((targetItem.children.getD []) ++ [draggedItem]) :: jv₂)
        = treeIdsList jv₁ ++ ((targetItem.id
          :: (treeIdsList (targetItem.children.getD [])
            ++ treeIds draggedItem)) ++ treeIdsList jv₂) := by
      rw [allIds_eq, treeIdsList_append, treeIdsList_cons,
        treeIds_setChildren_append]
    have hjid2 : treeIdsList iv₁ ++ treeIdsList iv₂
        = treeIdsList jv₁ ++ ((targetItem.id
          :: treeIdsList (targetItem.children.getD []))
            ++ treeIdsList jv₂) := by
      rw [hjid, treeIds_eq]
    rw [h1, hitems]
    have hjm : (↑(treeIdsList iv₁ ++ treeIdsList iv₂) : Multiset String)
        = ↑(treeIdsList jv₁ ++ ((targetItem.id
          :: treeIdsList (targetItem.children.getD []))
            ++ treeIdsList jv₂)) := by rw [hjid2]
    simp only [← Multiset.coe_add, ← Multiset.cons_coe] at hjm ⊢
    exact mshuffle_B _ _ _ _ _ _ _ hjm
  · rw [if_neg hnm]
    have hjm : (↑(treeIdsList iv₁ ++ treeIdsList iv₂) : Multiset String)
        = ↑(treeIdsList jv₁ ++ (treeIds targetItem ++ treeIdsList jv₂))
        := by rw [hjid]
    by_cases hx : x > w / 2
    · rw [if_pos hx, ← Multiset.coe_eq_coe]
      have h1 : allIds (jv₁ ++ targetItem :: draggedItem :: jv₂)
          = treeIdsList jv₁ ++ (treeIds targetItem
            ++ (treeIds draggedItem ++ treeIdsList jv₂)) := by
        rw [allIds_eq, treeIdsList_append, treeIdsList_cons,
          treeIdsList_cons]
      rw [h1, hitems]
      simp only [← Multiset.coe_add] at hjm ⊢
      exact mshuffle_C _ _ _ _ _ _ hjm
    · rw [if_neg hx, ← Multiset.coe_eq_coe]
      have h1 : allIds (jv₁ ++ draggedItem :: targetItem :: jv₂)
          = treeIdsList jv₁ ++ (treeIds draggedItem
            ++ (treeIds targetItem ++ treeIdsList jv₂)) := by
        rw [allIds_eq, treeIdsList_append, treeIdsList_cons,
          treeIdsList_cons]
      rw [h1, hitems]
      simp only [← Multiset.coe_add] at hjm ⊢
      exact mshuffle_D _ _ _ _ _ _ hjm

/-- C3 amended, witness: merging `A` into `B` at time 7 adds exactly the id
`folder-7`, and the resulting tree's ids stay duplicate-free. -/
theorem c3_amended_witness :
    (allIds (handleDrop [linkA, linkB] linkA linkB 50 50 100 100 7)).Perm
      (("folder-" ++ toString 7) :: allIds [linkA, linkB]) ∧
    (allIds (handleDrop [linkA, linkB] linkA linkB 50 50 100 100 7)).Nodup
    := by
  have h := (c3_amended linkA linkB 50 50 100 100 7 [] [linkB] [] []
    (by decide) (by simp) rfl (by simp)).1 (by norm_num) rfl
  exact ⟨h.1, h.2 (by decide) (by decide)⟩

theorem map_replace_at (u₁ u₂ : List BookmarkItem) (folder g : BookmarkItem)
    (hg : g.id = folder.id)
    (hfid : ∀ b ∈ u₁ ++ u₂, (b.id == folder.id) = false) :
    (u₁ ++ folder :: u₂).map (fun i => if i.id == g.id then g else i)
      = u₁ ++ g :: u₂ := by
  rw [hg, List.map_append, List.map_cons]
  have h₁ : u₁.map (fun i => if i.id == folder.id then g else i) = u₁ := by
    induction u₁ with
    | nil => rfl
    | cons b l ih =>
      have hb : (b.id == folder.id) = false := hfid b (by simp)
      simp only [List.map_cons, hb, Bool.false_eq_true, if_false,
        List.cons_inj_right]
      exact ih fun c hc => hfid c (by simp at hc ⊢; tauto)
  have h₂ : u₂.map (fun i => if i.id == folder.id then g else i) = u₂ := by
    induction u₂ with
    | nil => rfl
    | cons b l ih =>
      have hb : (b.id == folder.id) = false := hfid b (by simp)
      simp only [List.map_cons, hb, Bool.false_eq_true, if_false,
        List.cons_inj_right]
      exact ih fun c hc => hfid c (by simp at hc ⊢; tauto)
  rw [h₁, h₂]
  simp

theorem mshuffle_E (Fid : String) (C W1 W2 U1 U2 : Multiset String) :
    (U1 + ((Fid ::ₘ (W1 + W2)) + U2)) + C
      = U1 + ((Fid ::ₘ (W1 + (C + W2))) + U2) := by
  rw [← Multiset.singleton_add, ← Multiset.singleton_add]
  abel

/-- C10: the folder view's two child-removal paths.  The context-menu
Remove path (`FolderView.handleRemoveFromFolder` into
`App.handleUpdateFolder`) filters the child out of the folder without
re-adding it anywhere: the folder stays at its position (possibly emptied)
and the child's id disappears from the entire tree.  The backdrop drag-out
path (`App.handleRemoveFromFolder`) keeps the folder at its original
top-level position with the child filtered out and appends the child at
the end of the top level, conserving the multiset of tree ids. -/
theorem c10_folder_removal_paths (folder child : BookmarkItem)
    (u₁ u₂ w₁ w₂ cs : List BookmarkItem)
    (hcs : folder.children = some cs)
    (hw : cs = w₁ ++ child :: w₂)
    (hwid : ∀ b ∈ w₁ ++ w₂, (b.id == child.id) = false)
    (hfid : ∀ b ∈ u₁ ++ u₂, (b.id == folder.id) = false)
    (hg1 : child.id ∉ treeIdsList u₁) (hg2 : child.id ∉ treeIdsList u₂)
    (hg3 : child.id ≠ folder.id)
    (hg4 : child.id ∉ treeIdsList w₁) (hg5 : child.id ∉ treeIdsList w₂) :
    contextMenuRemove (u₁ ++ folder :: u₂) folder child.id
        = u₁ ++ folder.setChildren (w₁ ++ w₂) :: u₂ ∧
    child.id ∉
      allIds (contextMenuRemove (u₁ ++ folder :: u₂) folder child.id) ∧
    handleRemoveFromFolder (u₁ ++ folder :: u₂) folder child
        = (u₁ ++ folder.setChildren (w₁ ++ w₂) :: u₂) ++ [child] ∧
    (allIds (handleRemoveFromFolder (u₁ ++ folder :: u₂) folder
        child)).Perm (allIds (u₁ ++ folder :: u₂)) := by
  have hfilter : cs.filter (fun c => !(c.id == child.id)) = w₁ ++ w₂ := by
    rw [hw]
    exact filter_drop_first w₁ w₂ child (fun c => c.id == child.id)
      hwid (by simp)
  have hfv : folderViewRemoveChild folder child.id
      = folder.setChildren (w₁ ++ w₂) := by
    unfold folderViewRemoveChild
    simp only [hcs]
    rw [hfilter]
  have ha1 : contextMenuRemove (u₁ ++ folder :: u₂) folder child.id
      = u₁ ++ folder.setChildren (w₁ ++ w₂) :: u₂ := by
    unfold contextMenuRemove handleUpdateFolder
    rw [hfv]
    exact map_replace_at u₁ u₂ folder (folder.setChildren (w₁ ++ w₂))
      (id_setChildren folder (w₁ ++ w₂)) hfid
  have hgetd : folder.children.getD [] = cs := by rw [hcs]; rfl
  have hb1 : handleRemoveFromFolder (u₁ ++ folder :: u₂) folder child
      = (u₁ ++ folder.setChildren (w₁ ++ w₂) :: u₂) ++ [child] := by
    unfold handleRemoveFromFolder
    simp only [hcs]
    rw [hfilter]
    rw [map_replace_at u₁ u₂ folder (folder.setChildren (w₁ ++ w₂))
      (id_setChildren folder (w₁ ++ w₂)) hfid]
  refine ⟨ha1, ?_, hb1, ?_⟩
  · rw [ha1]
    rw [allIds_eq, treeIdsList_append, treeIdsList_cons,
      treeIds_setChildren, treeIdsList_append]
    simp only [List.mem_append, List.mem_cons]
    intro hmem
    tauto
  · rw [hb1, ← Multiset.coe_eq_coe]
    have hL : allIds ((u₁ ++ folder.setChildren (w₁ ++ w₂) :: u₂)
        ++ [child])
        = (treeIdsList u₁ ++ ((folder.id
            :: (treeIdsList w₁ ++ treeIdsList w₂)) ++ treeIdsList u₂))
          ++ treeIds child := by
      rw [allIds_eq, treeIdsList_append, treeIdsList_append,
        treeIdsList_cons, treeIds_setChildren, treeIdsList_append,
        treeIdsList_singleton]
    have hR : allIds (u₁ ++ folder :: u₂)
        = treeIdsList u₁ ++ ((folder.id
            :: (treeIdsList w₁ ++ (treeIds child ++ treeIdsList w₂)))
          ++ treeIdsList u₂) := by
      rw [allIds_eq, treeIdsList_append, treeIdsList_cons, treeIds_eq,
        hgetd, hw, treeIdsList_append, treeIdsList_cons]
    rw [hL, hR]
    simp only [← Multiset.coe_add, ← Multiset.cons_coe]
    exact mshuffle_E _ _ _ _ _ _

/-- C10 witness: on the single-folder list `[F1]` (children `[C]`), the
context-menu Remove of `C` leaves the emptied folder and destroys the id
`c`, while the backdrop drag-out keeps the folder in place and appends `C`
at the end of the top level, conserving all ids. -/
theorem c10_folder_removal_paths_witness :
    contextMenuRemove [folderF1] folderF1 linkC.id
        = [folderF1.setChildren []] ∧
    linkC.id ∉ allIds (contextMenuRemove [folderF1] folderF1 linkC.id) ∧
    handleRemoveFromFolder [folderF1] folderF1 linkC
        = [folderF1.setChildren [], linkC] ∧
    (allIds (handleRemoveFromFolder [folderF1] folderF1 linkC)).Perm
        (allIds [folderF1]) := by
  have h := c10_folder_removal_paths folderF1 linkC [] [] [] [] [linkC]
    rfl rfl (by simp) (by simp)
    (by decide) (by decide) (by decide) (by decide) (by decide)
  exact ⟨h.1, h.2.1, h.2.2.1, h.2.2.2⟩
